import Mathlib

/-!
Verification development for the raycaster in src/main.cpp.

The file gives a shallow embedding of the program's core: the hard-coded
16x16 map, the DDA ray caster, the projection and fogged shading of a wall
distance, the movement-and-collision update, and the FPS bookkeeping.

Modelling conventions:
* C++ doubles are modelled as exact rationals wherever the code only does
  field arithmetic and comparisons (map lookups, the DDA traversal, the
  shading pipeline, the fps update), and as real numbers where square
  roots and trigonometry occur (the movement update, ray angles).
* IEEE divisions by zero produce non-finite doubles; such results are
  modelled as Option.none.
* The unbounded `while (hit == 0)` DDA loop is modelled with explicit
  fuel; running out of fuel (non-termination of the C++ loop) is none.
* Reading the map string out of its 256-character range is undefined
  behaviour in the C++ source; it is modelled as a blank (non-wall) cell.
* The 1e30 sentinel for an axis-parallel ray is modelled as 10^30.
-/

/-- C++ `static_cast<int>` applied to a floating value: truncation toward
zero (used at src/main.cpp lines 72, 87, 109-110, 303, 333, 345). -/
def cppTrunc {α : Type} [LinearOrderedRing α] [FloorRing α] (x : α) : ℤ :=
  if 0 ≤ x then ⌊x⌋ else ⌈x⌉

/-- The hard-coded world map built by successive `map += L"..."` statements
at src/main.cpp lines 285-301: 16 rows of 16 characters. -/
def gameMap : String :=
  "################" ++
  "#........###...#" ++
  "#...#....###...#" ++
  "#...#..........#" ++
  "#...#####..##..#" ++
  "#......#....#..#" ++
  "#......#....#..#" ++
  "#......#....#..#" ++
  "###....##..##..#" ++
  "#..............#" ++
  "#..............#" ++
  "#.......#......#" ++
  "#.......#......#" ++
  "#....######....#" ++
  "#.........#....#" ++
  "################"

/-- `map[idx]` for the flat row-major index `idx`.  Indices outside
[0, 256) are out-of-range reads of the wstring (undefined behaviour in the
source); they are modelled as a blank, non-wall character. -/
def cellIdx (idx : ℤ) : Char :=
  if 0 ≤ idx ∧ idx < 256 then gameMap.toList.getD idx.toNat ' ' else ' '

/-- `map[my * mapWidth + mx]` with `mapWidth = 16`
(src/main.cpp lines 18, 150, 303, 333). -/
def cellAt (mx my : ℤ) : Char :=
  cellIdx (my * 16 + mx)

/-- The wall test `map[my * mapWidth + mx] == '#'` used by the DDA loop
(src/main.cpp line 150) and the collision checks (lines 303, 333). -/
def isWall (mx my : ℤ) : Bool :=
  cellAt mx my = '#'

/-- The cell containing a continuous position, via the
`(int)playerY * mapWidth + (int)playerX` lookups of src/main.cpp
lines 303 and 333. -/
def cellAtPos {α : Type} [LinearOrderedField α] [FloorRing α] (x y : α) : Char :=
  cellAt (cppTrunc x) (cppTrunc y)

/-- State of the DDA traversal of `rayCast` (src/main.cpp lines 109-151):
accumulated side distances and the current map cell. -/
structure DdaState (α : Type) where
  sideDistX : α
  sideDistY : α
  mapX : ℤ
  mapY : ℤ
deriving DecidableEq, Repr

/-- One iteration of the DDA loop body (src/main.cpp lines 141-149):
advance along the axis with the smaller accumulated side distance and
record which axis advanced (`false` = X side, `true` = Y side). -/
def ddaStep {α : Type} [LinearOrderedField α] (deltaDistX deltaDistY : α)
    (stepX stepY : ℤ) (st : DdaState α) : DdaState α × Bool :=
  if st.sideDistX < st.sideDistY then
    (⟨st.sideDistX + deltaDistX, st.sideDistY, st.mapX + stepX, st.mapY⟩, false)
  else
    (⟨st.sideDistX, st.sideDistY + deltaDistY, st.mapX, st.mapY + stepY⟩, true)

/-- The `while (hit == 0)` loop of `rayCast` (src/main.cpp lines 140-151),
with explicit fuel standing in for the missing iteration bound: each
round steps once, then stops as soon as the entered cell is a wall.
Running out of fuel (the C++ loop not terminating) yields none. -/
def ddaLoop {α : Type} [LinearOrderedField α] (deltaDistX deltaDistY : α)
    (stepX stepY : ℤ) : Nat → DdaState α → Option (DdaState α × Bool)
  | 0, _ => none
  | fuel + 1, st =>
    let p := ddaStep deltaDistX deltaDistY stepX stepY st
    if isWall p.1.mapX p.1.mapY then some p
    else ddaLoop deltaDistX deltaDistY stepX stepY fuel p.1

/-- Fuel for `ddaLoop`; any traversal of the enclosed 16x16 grid hits a
wall well within 64 steps. -/
def ddaFuel : Nat := 64

/-- The body of `rayCast` (src/main.cpp lines 103-157) below the ray-angle
computation, parametrised by the ray direction components
`rayDirX = cos rayAngle`, `rayDirY = sin rayAngle`.  The `1e30` sentinel
replacing `|1/dir|` for a zero component (lines 115-116) is modelled as
10^30.  The final perpendicular-distance division (lines 153-154) divides
by a direction component; if that component is zero the C++ double result
is non-finite, modelled as none. -/
def rayCastDir {α : Type} [LinearOrderedField α] [FloorRing α]
    (px py rayDirX rayDirY : α) : Option α :=
  let mapX : ℤ := cppTrunc px
  let mapY : ℤ := cppTrunc py
  let deltaDistX : α := if rayDirX = 0 then 10 ^ 30 else |1 / rayDirX|
  let deltaDistY : α := if rayDirY = 0 then 10 ^ 30 else |1 / rayDirY|
  let stepX : ℤ := if rayDirX < 0 then -1 else 1
  let sideDistX : α :=
    if rayDirX < 0 then (px - (mapX : α)) * deltaDistX
    else ((mapX : α) + 1 - px) * deltaDistX
  let stepY : ℤ := if rayDirY < 0 then -1 else 1
  let sideDistY : α :=
    if rayDirY < 0 then (py - (mapY : α)) * deltaDistY
    else ((mapY : α) + 1 - py) * deltaDistY
  match ddaLoop deltaDistX deltaDistY stepX stepY ddaFuel
      ⟨sideDistX, sideDistY, mapX, mapY⟩ with
  | none => none
  | some (st, side) =>
    if side then
      if rayDirY = 0 then none
      else some (((st.mapY : α) - py + (((1 - stepY) / 2 : ℤ) : α)) / rayDirY)
    else
      if rayDirX = 0 then none
      else some (((st.mapX : α) - px + (((1 - stepX) / 2 : ℤ) : α)) / rayDirX)

/-- The ray angle for screen column `x` (src/main.cpp line 104) with the
program constants `fieldOfView = 0.75` (line 27) and `screenWidth = 800`
(line 14). -/
def rayAngleAt {α : Type} [LinearOrderedField α] (playerAngle : α) (x : ℤ) : α :=
  (playerAngle - (3 / 4 : α) / 2) + ((x : α) / 800) * (3 / 4 : α)

/-- The free-standing mutable globals of src/main.cpp (lines 22-36) that a
call can read or write: the player pose and the FPS accumulators.
`fieldOfView`, `screenWidth`, `screenHeight` and the map are initialised
once and never reassigned, so they appear as literal constants. -/
structure Globals where
  playerX : ℝ
  playerY : ℝ
  playerAngle : ℝ
  frameCount : ℤ
  fps : ℝ
  lastFpsTime : ℝ

/-- `rayCast(x, map)` (src/main.cpp lines 103-157) as a function of the
global state: it computes the column's ray angle from the player pose,
runs the DDA, and writes no global, so the state component of the result
is the input state. -/
noncomputable def rayCast (x : ℤ) (g : Globals) : Option ℝ × Globals :=
  let rayAngle := rayAngleAt g.playerAngle x
  (rayCastDir g.playerX g.playerY (Real.cos rayAngle) (Real.sin rayAngle), g)

/-- Keyboard state consumed by `handleMovement` (src/main.cpp
lines 160-206): WASD movement, arrow-key rotation, shift sprint. -/
structure Keys where
  w : Bool
  s : Bool
  a : Bool
  d : Bool
  left : Bool
  right : Bool
  shift : Bool

/-- Player pose: continuous position and heading angle. -/
structure Pose where
  x : ℝ
  y : ℝ
  angle : ℝ

/-- `handleMovement` (src/main.cpp lines 160-206): accumulate the W/S/D/A
contributions at the pre-rotation heading, apply arrow-key rotation to
the heading, then normalize the accumulated vector to unit length and
rescale it by `currentSpeed * elapsedTime` whenever its length is
positive.  The sprint multiplier is 2.5 (line 39). -/
noncomputable def handleMovement (k : Keys) (p : Pose) (moveSpeed t : ℝ) : Pose :=
  let currentSpeed := if k.shift then moveSpeed * 2.5 else moveSpeed
  let moveX0 :=
    (if k.w then Real.cos p.angle * currentSpeed * t else 0) +
    (if k.s then -(Real.cos p.angle * currentSpeed * t) else 0) +
    (if k.d then -(Real.sin p.angle * currentSpeed * t) else 0) +
    (if k.a then Real.sin p.angle * currentSpeed * t else 0)
  let moveY0 :=
    (if k.w then Real.sin p.angle * currentSpeed * t else 0) +
    (if k.s then -(Real.sin p.angle * currentSpeed * t) else 0) +
    (if k.d then Real.cos p.angle * currentSpeed * t else 0) +
    (if k.a then -(Real.cos p.angle * currentSpeed * t) else 0)
  let angle1 := p.angle - (if k.left then 2 * t else 0)
  let angle2 := angle1 + (if k.right then 2 * t else 0)
  let len := Real.sqrt (moveX0 * moveX0 + moveY0 * moveY0)
  let moveX := if 0 < len then moveX0 / len * (currentSpeed * t) else moveX0
  let moveY := if 0 < len then moveY0 / len * (currentSpeed * t) else moveY0
  { x := p.x + moveX, y := p.y + moveY, angle := angle2 }

/-- One frame's movement update as performed by the main loop
(src/main.cpp lines 330-336): `handleMovement` with the base speed 1.5
(line 31), then the collision correction, which, when the new position's
cell is a wall, subtracts the forward displacement at base speed computed
from the post-rotation heading. -/
noncomputable def frameMove (k : Keys) (p : Pose) (t : ℝ) : Pose :=
  let p1 := handleMovement k p 1.5 t
  if cellAtPos p1.x p1.y = '#' then
    { x := p1.x - Real.cos p1.angle * 1.5 * t,
      y := p1.y - Real.sin p1.angle * 1.5 * t,
      angle := p1.angle }
  else p1

/-- Only the backward key held. -/
def keysBack : Keys := ⟨false, true, false, false, false, false, false⟩

/-- Only the forward key held. -/
def keysForward : Keys := ⟨true, false, false, false, false, false, false⟩

/-- Forward and strafe-right held together. -/
def keysForwardStrafe : Keys := ⟨true, false, false, true, false, false, false⟩

/-- Wall shade of `renderWallsAndFloor` (src/main.cpp lines 72-75):
base brightness `int(255 * (1 - d/depth))` with `depth = 16` (line 28),
clamped to be nonnegative, then forced to 0 for boundary walls. -/
def wallShade (d : ℚ) (isBoundary : Bool) : ℤ :=
  let w := cppTrunc ((255 : ℚ) * (1 - d / 16))
  let w1 := if w < 0 then 0 else w
  if isBoundary then 0 else w1

/-- Fog intensity of `renderWallsAndFloor` (src/main.cpp lines 78-80):
0 up to the fog start 8.0, then `(d - 8) / (16 - 8)` clamped to 1. -/
def fogIntensity (d : ℚ) : ℚ :=
  let f := if d > 8 then (d - 8) / (16 - 8) else 0
  if f > 1 then 1 else f

/-- The fogged wall shade drawn for the column
(src/main.cpp line 87): `int(wallShade * (1 - fogIntensity))`. -/
def foggedWallShade (d : ℚ) (isBoundary : Bool) : ℤ :=
  cppTrunc ((wallShade d isBoundary : ℚ) * (1 - fogIntensity d))

/-- The ceiling bound of the main render loop (src/main.cpp line 345):
`int(screenHeight / 2.0f - screenHeight / d)` with `screenHeight = 600`
(line 15).  The code divides by `d` with no clamp; at `d = 0` the IEEE
quotient is non-finite and the int cast undefined, modelled as none. -/
def ceilingOf (d : ℚ) : Option ℤ :=
  if d = 0 then none else some (cppTrunc ((600 : ℚ) / 2 - 600 / d))

/-- The floor bound (src/main.cpp line 346): `screenHeight - nCeiling`. -/
def floorOf (d : ℚ) : Option ℤ :=
  (ceilingOf d).map (fun c => 600 - c)

/-- The FPS accumulators (src/main.cpp lines 34-36). -/
structure FpsState where
  frameCount : ℤ
  fps : ℚ
  lastFpsTime : ℚ
deriving DecidableEq

/-- The initial FPS accumulators (src/main.cpp lines 34-36):
`frameCount = 0`, `fps = 0.0`, and the startup timestamp. -/
def initialFps (t0 : ℚ) : FpsState :=
  ⟨0, 0, t0⟩

/-- `getFps` (src/main.cpp lines 46-58) with the current wall-clock time
passed explicitly: increment the frame counter; if at least one second
has elapsed since the last measurement, recompute `fps` from the
incremented counter and reset counter and timer; return the stored
`fps`. -/
def getFps (now : ℚ) (st : FpsState) : ℚ × FpsState :=
  let fc := st.frameCount + 1
  let elapsed := now - st.lastFpsTime
  if 1 ≤ elapsed then
    let f := (fc : ℚ) / elapsed
    (f, ⟨0, f, now⟩)
  else
    (st.fps, ⟨fc, st.fps, st.lastFpsTime⟩)

/-! ### Helper lemmas about the DDA loop -/

theorem ddaStep_x {α : Type} [LinearOrderedField α] {deltaDistX deltaDistY : α}
    {stepX stepY : ℤ} {st : DdaState α} (h : st.sideDistX < st.sideDistY) :
    ddaStep deltaDistX deltaDistY stepX stepY st =
      (⟨st.sideDistX + deltaDistX, st.sideDistY, st.mapX + stepX, st.mapY⟩, false) := by
  simp [ddaStep, h]

theorem ddaStep_y {α : Type} [LinearOrderedField α] {deltaDistX deltaDistY : α}
    {stepX stepY : ℤ} {st : DdaState α} (h : ¬ st.sideDistX < st.sideDistY) :
    ddaStep deltaDistX deltaDistY stepX stepY st =
      (⟨st.sideDistX, st.sideDistY + deltaDistY, st.mapX, st.mapY + stepY⟩, true) := by
  simp [ddaStep, h]

theorem ddaLoop_succ {α : Type} [LinearOrderedField α] (deltaDistX deltaDistY : α)
    (stepX stepY : ℤ) (fuel : ℕ) (st : DdaState α) :
    ddaLoop deltaDistX deltaDistY stepX stepY (fuel + 1) st =
      (let p := ddaStep deltaDistX deltaDistY stepX stepY st
       if isWall p.1.mapX p.1.mapY then some p
       else ddaLoop deltaDistX deltaDistY stepX stepY fuel p.1) := rfl

/-- If the first wall along the X direction is reached after `n + 1` X
steps, the Y side distance stays strictly larger throughout, and fuel
suffices, then the DDA loop performs exactly those X steps and reports an
X-side hit there. -/
theorem ddaLoop_xrun {α : Type} [LinearOrderedField α] (deltaDistX deltaDistY : α)
    (stepX stepY : ℤ) (hdX : 0 ≤ deltaDistX) :
    ∀ (n fuel : ℕ) (st : DdaState α), n < fuel →
      st.sideDistX + (n : α) * deltaDistX < st.sideDistY →
      isWall (st.mapX + ((n : ℤ) + 1) * stepX) st.mapY = true →
      (∀ k : ℕ, k < n → isWall (st.mapX + ((k : ℤ) + 1) * stepX) st.mapY = false) →
      ddaLoop deltaDistX deltaDistY stepX stepY fuel st =
        some (⟨st.sideDistX + ((n : α) + 1) * deltaDistX, st.sideDistY,
               st.mapX + ((n : ℤ) + 1) * stepX, st.mapY⟩, false) := by
  intro n
  induction n with
  | zero =>
    intro fuel st hfuel hlt hwall _
    obtain ⟨f, rfl⟩ : ∃ f, fuel = f + 1 := ⟨fuel - 1, by omega⟩
    have hx : st.sideDistX < st.sideDistY := by simpa using hlt
    rw [ddaLoop_succ]
    simp only [ddaStep_x hx]
    have hw : isWall (st.mapX + stepX) st.mapY = true := by
      simpa using hwall
    simp [hw]
  | succ m ih =>
    intro fuel st hfuel hlt hwall hempty
    obtain ⟨f, rfl⟩ : ∃ f, fuel = f + 1 := ⟨fuel - 1, by omega⟩
    have hx : st.sideDistX < st.sideDistY := by
      have h0 : (0 : α) ≤ ((m : α) + 1) * deltaDistX := by positivity
      have := hlt
      push_cast at this
      nlinarith [this]
    rw [ddaLoop_succ]
    simp only [ddaStep_x hx]
    have hw0 : isWall (st.mapX + stepX) st.mapY = false := by
      have := hempty 0 (Nat.succ_pos m)
      simpa using this
    simp only [hw0, Bool.false_eq_true, if_false]
    have hrec := ih f ⟨st.sideDistX + deltaDistX, st.sideDistY,
      st.mapX + stepX, st.mapY⟩ (by omega)
      (by
        push_cast at hlt ⊢
        have hE : ((m : α) + 1) * deltaDistX = (m : α) * deltaDistX + deltaDistX := by
          ring
        rw [hE] at hlt
        linarith)
      (by
        have : st.mapX + stepX + ((m : ℤ) + 1) * stepX
            = st.mapX + (((m : ℤ) + 1) + 1) * stepX := by ring
        rw [this]
        exact_mod_cast hwall)
      (by
        intro k hk
        have : st.mapX + stepX + ((k : ℤ) + 1) * stepX
            = st.mapX + (((k : ℤ) + 1) + 1) * stepX := by ring
        rw [this]
        have := hempty (k + 1) (by omega)
        simpa using this)
    rw [hrec]
    simp only [Option.some.injEq, Prod.mk.injEq, DdaState.mk.injEq]
    refine ⟨⟨?_, trivial, ?_, trivial⟩, trivial⟩
    · push_cast
      ring
    · push_cast
      ring

/-- Mirror of `ddaLoop_xrun` for a run of pure Y steps: the Y branch is
taken while the accumulated Y side distance stays at most the X one. -/
theorem ddaLoop_yrun {α : Type} [LinearOrderedField α] (deltaDistX deltaDistY : α)
    (stepX stepY : ℤ) (hdY : 0 ≤ deltaDistY) :
    ∀ (n fuel : ℕ) (st : DdaState α), n < fuel →
      st.sideDistY + (n : α) * deltaDistY ≤ st.sideDistX →
      isWall st.mapX (st.mapY + ((n : ℤ) + 1) * stepY) = true →
      (∀ k : ℕ, k < n → isWall st.mapX (st.mapY + ((k : ℤ) + 1) * stepY) = false) →
      ddaLoop deltaDistX deltaDistY stepX stepY fuel st =
        some (⟨st.sideDistX, st.sideDistY + ((n : α) + 1) * deltaDistY,
               st.mapX, st.mapY + ((n : ℤ) + 1) * stepY⟩, true) := by
  intro n
  induction n with
  | zero =>
    intro fuel st hfuel hle hwall _
    obtain ⟨f, rfl⟩ : ∃ f, fuel = f + 1 := ⟨fuel - 1, by omega⟩
    have hy : ¬ st.sideDistX < st.sideDistY := by
      simp only [Nat.cast_zero, zero_mul, add_zero] at hle
      exact not_lt.mpr hle
    rw [ddaLoop_succ]
    simp only [ddaStep_y hy]
    have hw : isWall st.mapX (st.mapY + stepY) = true := by
      simpa using hwall
    simp [hw]
  | succ m ih =>
    intro fuel st hfuel hle hwall hempty
    obtain ⟨f, rfl⟩ : ∃ f, fuel = f + 1 := ⟨fuel - 1, by omega⟩
    have hy : ¬ st.sideDistX < st.sideDistY := by
      have h0 : (0 : α) ≤ ((m : α) + 1) * deltaDistY := by positivity
      have h1 := hle
      push_cast at h1
      refine not_lt.mpr ?_
      linarith
    rw [ddaLoop_succ]
    simp only [ddaStep_y hy]
    have hw0 : isWall st.mapX (st.mapY + stepY) = false := by
      have := hempty 0 (Nat.succ_pos m)
      simpa using this
    simp only [hw0, Bool.false_eq_true, if_false]
    have hrec := ih f ⟨st.sideDistX, st.sideDistY + deltaDistY,
      st.mapX, st.mapY + stepY⟩ (by omega)
      (by
        push_cast at hle ⊢
        have hE : ((m : α) + 1) * deltaDistY = (m : α) * deltaDistY + deltaDistY := by
          ring
        rw [hE] at hle
        linarith)
      (by
        have : st.mapY + stepY + ((m : ℤ) + 1) * stepY
            = st.mapY + (((m : ℤ) + 1) + 1) * stepY := by ring
        rw [this]
        exact_mod_cast hwall)
      (by
        intro k hk
        have : st.mapY + stepY + ((k : ℤ) + 1) * stepY
            = st.mapY + (((k : ℤ) + 1) + 1) * stepY := by ring
        rw [this]
        have := hempty (k + 1) (by omega)
        simpa using this)
    rw [hrec]
    simp only [Option.some.injEq, Prod.mk.injEq, DdaState.mk.injEq]
    refine ⟨⟨trivial, ?_, trivial, ?_⟩, trivial⟩
    · push_cast
      ring
    · push_cast
      ring

/-! ### Facts about the hard-coded map -/

set_option maxRecDepth 4000 in
/-- The map literal has exactly 16 * 16 = 256 characters. -/
theorem gameMap_length : gameMap.length = 256 := by decide

set_option maxRecDepth 100000 in
/-- Every cell of the outer border of the 16x16 grid is a wall. -/
theorem borderWall_fin :
    ∀ a : Fin 16, isWall (a.val : ℤ) 0 = true ∧ isWall (a.val : ℤ) 15 = true ∧
      isWall 0 (a.val : ℤ) = true ∧ isWall 15 (a.val : ℤ) = true := by decide

set_option maxRecDepth 1000000 in
/-- Every non-wall cell of the 16x16 grid lies strictly inside the border. -/
theorem nonwall_interior_fin :
    ∀ a b : Fin 16, isWall (a.val : ℤ) (b.val : ℤ) = false →
      1 ≤ (a.val : ℤ) ∧ (a.val : ℤ) ≤ 14 ∧ 1 ≤ (b.val : ℤ) ∧ (b.val : ℤ) ≤ 14 := by
  decide

/-- Integer-index version of `borderWall_fin`. -/
theorem borderWall {i : ℤ} (h0 : 0 ≤ i) (h1 : i ≤ 15) :
    isWall i 0 = true ∧ isWall i 15 = true ∧
      isWall 0 i = true ∧ isWall 15 i = true := by
  have hi : i = ((⟨i.toNat, by omega⟩ : Fin 16).val : ℤ) := by
    simp [Int.toNat_of_nonneg h0]
  rw [hi]
  exact borderWall_fin _

/-- Integer-index version of `nonwall_interior_fin`. -/
theorem nonwall_interior {mx my : ℤ} (hx0 : 0 ≤ mx) (hx1 : mx ≤ 15)
    (hy0 : 0 ≤ my) (hy1 : my ≤ 15) (hw : isWall mx my = false) :
    1 ≤ mx ∧ mx ≤ 14 ∧ 1 ≤ my ∧ my ≤ 14 := by
  have hxe : mx = ((⟨mx.toNat, by omega⟩ : Fin 16).val : ℤ) := by
    simp [Int.toNat_of_nonneg hx0]
  have hye : my = ((⟨my.toNat, by omega⟩ : Fin 16).val : ℤ) := by
    simp [Int.toNat_of_nonneg hy0]
  rw [hxe, hye]
  rw [hxe, hye] at hw
  exact nonwall_interior_fin _ _ hw

/-- If the DDA starts in a strictly interior cell and steps by one cell at
a time, any state it reports a hit in still has both indices inside the
16x16 grid: the border of walls stops the traversal before it can leave
the map. -/
theorem ddaLoop_stays_in_grid {α : Type} [LinearOrderedField α]
    (deltaDistX deltaDistY : α) (stepX stepY : ℤ)
    (hsX : stepX = 1 ∨ stepX = -1) (hsY : stepY = 1 ∨ stepY = -1) :
    ∀ (fuel : ℕ) (st st' : DdaState α) (side : Bool),
      1 ≤ st.mapX → st.mapX ≤ 14 → 1 ≤ st.mapY → st.mapY ≤ 14 →
      ddaLoop deltaDistX deltaDistY stepX stepY fuel st = some (st', side) →
      0 ≤ st'.mapX ∧ st'.mapX ≤ 15 ∧ 0 ≤ st'.mapY ∧ st'.mapY ≤ 15 := by
  intro fuel
  induction fuel with
  | zero =>
    intro st st' side _ _ _ _ h
    simp [ddaLoop] at h
  | succ f ih =>
    intro st st' side hx0 hx1 hy0 hy1 h
    rw [ddaLoop_succ] at h
    set p := ddaStep deltaDistX deltaDistY stepX stepY st with hp
    have hbounds : 0 ≤ p.1.mapX ∧ p.1.mapX ≤ 15 ∧ 0 ≤ p.1.mapY ∧ p.1.mapY ≤ 15 := by
      rw [hp]
      unfold ddaStep
      split <;> simp <;> omega
    by_cases hw : isWall p.1.mapX p.1.mapY = true
    · rw [if_pos hw] at h
      have : p.1 = st' := by
        have := Option.some.inj h
        exact congrArg Prod.fst this
      rw [this] at hbounds
      exact hbounds
    · rw [if_neg (by simpa using hw)] at h
      have hinterior := nonwall_interior hbounds.1 hbounds.2.1 hbounds.2.2.1
        hbounds.2.2.2 (by simpa using hw)
      exact ih p.1 st' side hinterior.1 hinterior.2.1 hinterior.2.2.1
        hinterior.2.2.2 h

/-- `cppTrunc` agrees with the floor on nonnegative arguments. -/
theorem cppTrunc_of_nonneg {α : Type} [LinearOrderedRing α] [FloorRing α]
    {x : α} (h : 0 ≤ x) : cppTrunc x = ⌊x⌋ :=
  if_pos h

/-- Evaluation of an exactly-east ray (direction (1,0)) from an interior
non-wall position whose south fractional offset makes the sentinel side
distance unreachable: the DDA walks east to the first wall of the row and
the perpendicular distance is positive. -/
theorem rayCastDir_east (px py : ℚ) (hpx0 : 0 ≤ px) (hpx1 : px < 16)
    (hpy0 : 0 ≤ py) (hpy1 : py < 16)
    (hfree : isWall ⌊px⌋ ⌊py⌋ = false)
    (hoy : (16 : ℚ) < ((⌊py⌋ : ℚ) + 1 - py) * 10 ^ 30) :
    ∃ d, rayCastDir px py 1 0 = some d ∧ 0 < d := by
  have hx15 : ⌊px⌋ ≤ 15 := by
    have : ⌊px⌋ < 16 := Int.floor_lt.mpr (by exact_mod_cast hpx1)
    omega
  have hy15 : ⌊py⌋ ≤ 15 := by
    have : ⌊py⌋ < 16 := Int.floor_lt.mpr (by exact_mod_cast hpy1)
    omega
  have hx0 : 0 ≤ ⌊px⌋ := Int.floor_nonneg.mpr hpx0
  have hy0 : 0 ≤ ⌊py⌋ := Int.floor_nonneg.mpr hpy0
  obtain ⟨hix0, hix1, hiy0, hiy1⟩ := nonwall_interior hx0 hx15 hy0 hy15 hfree
  have hw15 : isWall (⌊px⌋ + (((14 - ⌊px⌋).toNat : ℤ) + 1)) ⌊py⌋ = true := by
    have h14 : ((14 - ⌊px⌋).toNat : ℤ) = 14 - ⌊px⌋ := Int.toNat_of_nonneg (by omega)
    rw [h14, show ⌊px⌋ + (14 - ⌊px⌋ + 1) = 15 by ring]
    exact (borderWall hy0 hy15).2.2.2
  have hex : ∃ k : ℕ, isWall (⌊px⌋ + ((k : ℤ) + 1)) ⌊py⌋ = true := ⟨_, hw15⟩
  have hPn := Nat.find_spec hex
  have hnle : Nat.find hex ≤ 13 := by
    have h1 := Nat.find_min' hex hw15
    omega
  have hfuel : Nat.find hex < ddaFuel := by
    unfold ddaFuel
    omega
  have hloop := ddaLoop_xrun (α := ℚ) 1 1000000000000000000000000000000 1 1
    (by norm_num) (Nat.find hex) ddaFuel
    ⟨(⌊px⌋ : ℚ) + 1 - px, ((⌊py⌋ : ℚ) + 1 - py) * 1000000000000000000000000000000,
     ⌊px⌋, ⌊py⌋⟩
    hfuel
    (by
      have hle : (⌊px⌋ : ℚ) ≤ px := Int.floor_le px
      have hn13 : ((Nat.find hex : ℚ)) ≤ 13 := by exact_mod_cast hnle
      have h30 : (16 : ℚ) < ((⌊py⌋ : ℚ) + 1 - py) * 1000000000000000000000000000000 := by
        norm_num at hoy ⊢
        linarith
      simp only [mul_one]
      linarith)
    (by simpa using hPn)
    (by
      intro k hk
      have := Nat.find_min hex hk
      simpa using this)
  unfold rayCastDir
  norm_num [cppTrunc_of_nonneg, hpx0, hpy0]
  rw [hloop]
  refine ⟨_, rfl, ?_⟩
  push_cast
  have := Int.lt_floor_add_one px
  have hn0 : (0 : ℚ) ≤ (Nat.find hex : ℚ) := by positivity
  linarith

/-- Evaluation of an exactly-west ray (direction (-1,0)) from an interior
non-wall position: the DDA walks west to the first wall of the row; the
perpendicular distance is nonnegative, and positive whenever the player
is not exactly on a vertical grid line. -/
theorem rayCastDir_west (px py : ℚ) (hpx0 : 0 ≤ px) (hpx1 : px < 16)
    (hpy0 : 0 ≤ py) (hpy1 : py < 16)
    (hfree : isWall ⌊px⌋ ⌊py⌋ = false)
    (hoy : (16 : ℚ) < ((⌊py⌋ : ℚ) + 1 - py) * 10 ^ 30) :
    ∃ d, rayCastDir px py (-1) 0 = some d ∧ 0 ≤ d ∧
      (Int.fract px ≠ 0 → 0 < d) := by
  have hx15 : ⌊px⌋ ≤ 15 := by
    have : ⌊px⌋ < 16 := Int.floor_lt.mpr (by exact_mod_cast hpx1)
    omega
  have hy15 : ⌊py⌋ ≤ 15 := by
    have : ⌊py⌋ < 16 := Int.floor_lt.mpr (by exact_mod_cast hpy1)
    omega
  have hx0 : 0 ≤ ⌊px⌋ := Int.floor_nonneg.mpr hpx0
  have hy0 : 0 ≤ ⌊py⌋ := Int.floor_nonneg.mpr hpy0
  obtain ⟨hix0, hix1, hiy0, hiy1⟩ := nonwall_interior hx0 hx15 hy0 hy15 hfree
  have hw0 : isWall (⌊px⌋ + (((⌊px⌋ - 1).toNat : ℤ) + 1) * (-1)) ⌊py⌋ = true := by
    have h1 : (((⌊px⌋ - 1).toNat : ℤ)) = ⌊px⌋ - 1 := Int.toNat_of_nonneg (by omega)
    rw [h1, show ⌊px⌋ + (⌊px⌋ - 1 + 1) * (-1) = 0 by ring]
    exact (borderWall hy0 hy15).2.2.1
  have hex : ∃ k : ℕ, isWall (⌊px⌋ + ((k : ℤ) + 1) * (-1)) ⌊py⌋ = true := ⟨_, hw0⟩
  have hPn := Nat.find_spec hex
  have hnle : Nat.find hex ≤ 13 := by
    have h1 := Nat.find_min' hex hw0
    omega
  have hfuel : Nat.find hex < ddaFuel := by
    unfold ddaFuel
    omega
  have hloop := ddaLoop_xrun (α := ℚ) 1 1000000000000000000000000000000 (-1) 1
    (by norm_num) (Nat.find hex) ddaFuel
    ⟨Int.fract px, ((⌊py⌋ : ℚ) + 1 - py) * 1000000000000000000000000000000,
     ⌊px⌋, ⌊py⌋⟩
    hfuel
    (by
      have hfr : Int.fract px < 1 := Int.fract_lt_one px
      have hn13 : ((Nat.find hex : ℚ)) ≤ 13 := by exact_mod_cast hnle
      have h30 : (16 : ℚ) < ((⌊py⌋ : ℚ) + 1 - py) * 1000000000000000000000000000000 := by
        norm_num at hoy ⊢
        linarith
      simp only [mul_one]
      linarith)
    hPn
    (fun k hk => by
      have := Nat.find_min hex hk
      simpa using this)
  unfold rayCastDir
  norm_num [cppTrunc_of_nonneg, hpx0, hpy0]
  rw [hloop]
  refine ⟨_, rfl, ?_, ?_⟩
  · have hd : ((↑(⌊px⌋ + ((Nat.find hex : ℤ) + 1) * (-1)) : ℚ) - px + 1) / (-1)
        = Int.fract px + (Nat.find hex : ℚ) := by
      rw [Int.fract]
      push_cast
      ring
    rw [hd]
    have := Int.fract_nonneg px
    have hn0 : (0 : ℚ) ≤ (Nat.find hex : ℚ) := by positivity
    linarith
  · intro hfr
    have hd : ((↑(⌊px⌋ + ((Nat.find hex : ℤ) + 1) * (-1)) : ℚ) - px + 1) / (-1)
        = Int.fract px + (Nat.find hex : ℚ) := by
      rw [Int.fract]
      push_cast
      ring
    rw [hd]
    have h1 := Int.fract_nonneg px
    have h2 : 0 < Int.fract px := lt_of_le_of_ne h1 (Ne.symm hfr)
    have hn0 : (0 : ℚ) ≤ (Nat.find hex : ℚ) := by positivity
    linarith

/-- Evaluation of an exactly-south ray (direction (0,1), toward larger y)
from an interior non-wall position: the DDA walks down the column to its
first wall and the perpendicular distance is positive. -/
theorem rayCastDir_south (px py : ℚ) (hpx0 : 0 ≤ px) (hpx1 : px < 16)
    (hpy0 : 0 ≤ py) (hpy1 : py < 16)
    (hfree : isWall ⌊px⌋ ⌊py⌋ = false)
    (hox : (16 : ℚ) < ((⌊px⌋ : ℚ) + 1 - px) * 10 ^ 30) :
    ∃ d, rayCastDir px py 0 1 = some d ∧ 0 < d := by
  have hx15 : ⌊px⌋ ≤ 15 := by
    have : ⌊px⌋ < 16 := Int.floor_lt.mpr (by exact_mod_cast hpx1)
    omega
  have hy15 : ⌊py⌋ ≤ 15 := by
    have : ⌊py⌋ < 16 := Int.floor_lt.mpr (by exact_mod_cast hpy1)
    omega
  have hx0 : 0 ≤ ⌊px⌋ := Int.floor_nonneg.mpr hpx0
  have hy0 : 0 ≤ ⌊py⌋ := Int.floor_nonneg.mpr hpy0
  obtain ⟨hix0, hix1, hiy0, hiy1⟩ := nonwall_interior hx0 hx15 hy0 hy15 hfree
  have hw15 : isWall ⌊px⌋ (⌊py⌋ + (((14 - ⌊py⌋).toNat : ℤ) + 1)) = true := by
    have h14 : ((14 - ⌊py⌋).toNat : ℤ) = 14 - ⌊py⌋ := Int.toNat_of_nonneg (by omega)
    rw [h14, show ⌊py⌋ + (14 - ⌊py⌋ + 1) = 15 by ring]
    exact (borderWall hx0 hx15).2.1
  have hex : ∃ k : ℕ, isWall ⌊px⌋ (⌊py⌋ + ((k : ℤ) + 1)) = true := ⟨_, hw15⟩
  have hPn := Nat.find_spec hex
  have hnle : Nat.find hex ≤ 13 := by
    have h1 := Nat.find_min' hex hw15
    omega
  have hfuel : Nat.find hex < ddaFuel := by
    unfold ddaFuel
    omega
  have hloop := ddaLoop_yrun (α := ℚ) 1000000000000000000000000000000 1 1 1
    (by norm_num) (Nat.find hex) ddaFuel
    ⟨((⌊px⌋ : ℚ) + 1 - px) * 1000000000000000000000000000000, (⌊py⌋ : ℚ) + 1 - py,
     ⌊px⌋, ⌊py⌋⟩
    hfuel
    (by
      have hle : (⌊py⌋ : ℚ) ≤ py := Int.floor_le py
      have hn13 : ((Nat.find hex : ℚ)) ≤ 13 := by exact_mod_cast hnle
      have h30 : (16 : ℚ) < ((⌊px⌋ : ℚ) + 1 - px) * 1000000000000000000000000000000 := by
        norm_num at hox ⊢
        linarith
      simp only [mul_one]
      linarith)
    (by simpa using hPn)
    (by
      intro k hk
      have := Nat.find_min hex hk
      simpa using this)
  unfold rayCastDir
  norm_num [cppTrunc_of_nonneg, hpx0, hpy0]
  rw [hloop]
  refine ⟨_, rfl, ?_⟩
  push_cast
  have := Int.lt_floor_add_one py
  have hn0 : (0 : ℚ) ≤ (Nat.find hex : ℚ) := by positivity
  linarith

/-- Evaluation of an exactly-north ray (direction (0,-1), toward smaller
y) from an interior non-wall position: the perpendicular distance is
nonnegative, positive whenever the player is not exactly on a horizontal
grid line. -/
theorem rayCastDir_north (px py : ℚ) (hpx0 : 0 ≤ px) (hpx1 : px < 16)
    (hpy0 : 0 ≤ py) (hpy1 : py < 16)
    (hfree : isWall ⌊px⌋ ⌊py⌋ = false)
    (hox : (16 : ℚ) < ((⌊px⌋ : ℚ) + 1 - px) * 10 ^ 30) :
    ∃ d, rayCastDir px py 0 (-1) = some d ∧ 0 ≤ d ∧
      (Int.fract py ≠ 0 → 0 < d) := by
  have hx15 : ⌊px⌋ ≤ 15 := by
    have : ⌊px⌋ < 16 := Int.floor_lt.mpr (by exact_mod_cast hpx1)
    omega
  have hy15 : ⌊py⌋ ≤ 15 := by
    have : ⌊py⌋ < 16 := Int.floor_lt.mpr (by exact_mod_cast hpy1)
    omega
  have hx0 : 0 ≤ ⌊px⌋ := Int.floor_nonneg.mpr hpx0
  have hy0 : 0 ≤ ⌊py⌋ := Int.floor_nonneg.mpr hpy0
  obtain ⟨hix0, hix1, hiy0, hiy1⟩ := nonwall_interior hx0 hx15 hy0 hy15 hfree
  have hw0 : isWall ⌊px⌋ (⌊py⌋ + (((⌊py⌋ - 1).toNat : ℤ) + 1) * (-1)) = true := by
    have h1 : (((⌊py⌋ - 1).toNat : ℤ)) = ⌊py⌋ - 1 := Int.toNat_of_nonneg (by omega)
    rw [h1, show ⌊py⌋ + (⌊py⌋ - 1 + 1) * (-1) = 0 by ring]
    exact (borderWall hx0 hx15).1
  have hex : ∃ k : ℕ, isWall ⌊px⌋ (⌊py⌋ + ((k : ℤ) + 1) * (-1)) = true := ⟨_, hw0⟩
  have hPn := Nat.find_spec hex
  have hnle : Nat.find hex ≤ 13 := by
    have h1 := Nat.find_min' hex hw0
    omega
  have hfuel : Nat.find hex < ddaFuel := by
    unfold ddaFuel
    omega
  have hloop := ddaLoop_yrun (α := ℚ) 1000000000000000000000000000000 1 1 (-1)
    (by norm_num) (Nat.find hex) ddaFuel
    ⟨((⌊px⌋ : ℚ) + 1 - px) * 1000000000000000000000000000000, Int.fract py,
     ⌊px⌋, ⌊py⌋⟩
    hfuel
    (by
      have hfr : Int.fract py < 1 := Int.fract_lt_one py
      have hn13 : ((Nat.find hex : ℚ)) ≤ 13 := by exact_mod_cast hnle
      have h30 : (16 : ℚ) < ((⌊px⌋ : ℚ) + 1 - px) * 1000000000000000000000000000000 := by
        norm_num at hox ⊢
        linarith
      simp only [mul_one]
      linarith)
    hPn
    (fun k hk => by
      have := Nat.find_min hex hk
      simpa using this)
  unfold rayCastDir
  norm_num [cppTrunc_of_nonneg, hpx0, hpy0]
  rw [hloop]
  refine ⟨_, rfl, ?_, ?_⟩
  · have hd : ((↑(⌊py⌋ + ((Nat.find hex : ℤ) + 1) * (-1)) : ℚ) - py + 1) / (-1)
        = Int.fract py + (Nat.find hex : ℚ) := by
      rw [Int.fract]
      push_cast
      ring
    rw [hd]
    have := Int.fract_nonneg py
    have hn0 : (0 : ℚ) ≤ (Nat.find hex : ℚ) := by positivity
    linarith
  · intro hfr
    have hd : ((↑(⌊py⌋ + ((Nat.find hex : ℤ) + 1) * (-1)) : ℚ) - py + 1) / (-1)
        = Int.fract py + (Nat.find hex : ℚ) := by
      rw [Int.fract]
      push_cast
      ring
    rw [hd]
    have h1 := Int.fract_nonneg py
    have h2 : 0 < Int.fract py := lt_of_le_of_ne h1 (Ne.symm hfr)
    have hn0 : (0 : ℚ) ≤ (Nat.find hex : ℚ) := by positivity
    linarith

/-- Claim C5 (amended).  For every axis-parallel ray direction
(cos θ, sin θ) with cos θ = 0 or sin θ = 0, cast from an in-grid non-wall
position whose fractional offset toward the next grid line along the
perpendicular axis, scaled by the 1e30 sentinel, exceeds the worst-case
accumulated side distance 16 (a condition satisfied by every position
representable in IEEE double precision), the DDA loop terminates and the
returned perpendicular distance is finite (some) and nonnegative; it is
strictly positive whenever the position does not lie exactly on a grid
line. -/
theorem claim_C5 (c s px py : ℚ)
    (hcs : c ^ 2 + s ^ 2 = 1) (haxis : c = 0 ∨ s = 0)
    (hpx0 : 0 ≤ px) (hpx1 : px < 16) (hpy0 : 0 ≤ py) (hpy1 : py < 16)
    (hfree : isWall (cppTrunc px) (cppTrunc py) = false)
    (hoy : s = 0 → (16 : ℚ) < (((cppTrunc py : ℤ) : ℚ) + 1 - py) * 10 ^ 30)
    (hox : c = 0 → (16 : ℚ) < (((cppTrunc px : ℤ) : ℚ) + 1 - px) * 10 ^ 30) :
    ∃ d, rayCastDir px py c s = some d ∧ 0 ≤ d ∧
      (Int.fract px ≠ 0 → Int.fract py ≠ 0 → 0 < d) := by
  rw [cppTrunc_of_nonneg hpx0, cppTrunc_of_nonneg hpy0] at hfree
  rw [cppTrunc_of_nonneg hpy0] at hoy
  rw [cppTrunc_of_nonneg hpx0] at hox
  rcases haxis with hc | hs
  · subst hc
    have hs2 : s ^ 2 = 1 := by linarith [hcs]
    have : (s - 1) * (s + 1) = 0 := by nlinarith
    rcases mul_eq_zero.mp this with h | h
    · have hs1 : s = 1 := by linarith
      subst hs1
      obtain ⟨d, hd, hdpos⟩ := rayCastDir_south px py hpx0 hpx1 hpy0 hpy1 hfree
        (hox rfl)
      exact ⟨d, hd, le_of_lt hdpos, fun _ _ => hdpos⟩
    · have hs1 : s = -1 := by linarith
      subst hs1
      obtain ⟨d, hd, hd0, hdpos⟩ := rayCastDir_north px py hpx0 hpx1 hpy0 hpy1
        hfree (hox rfl)
      exact ⟨d, hd, hd0, fun _ h => hdpos h⟩
  · subst hs
    have hc2 : c ^ 2 = 1 := by linarith [hcs]
    have : (c - 1) * (c + 1) = 0 := by nlinarith
    rcases mul_eq_zero.mp this with h | h
    · have hc1 : c = 1 := by linarith
      subst hc1
      obtain ⟨d, hd, hdpos⟩ := rayCastDir_east px py hpx0 hpx1 hpy0 hpy1 hfree
        (hoy rfl)
      exact ⟨d, hd, le_of_lt hdpos, fun _ _ => hdpos⟩
    · have hc1 : c = -1 := by linarith
      subst hc1
      obtain ⟨d, hd, hd0, hdpos⟩ := rayCastDir_west px py hpx0 hpx1 hpy0 hpy1
        hfree (hoy rfl)
      exact ⟨d, hd, hd0, fun h _ => hdpos h⟩

/-- Counterexample to claim C5 as stated: the axis-parallel unit direction
(-1, 0) (angle π, so sin θ = 0), cast from the in-grid non-wall position
(9, 4.5), yields perpendicular distance exactly 0 — not strictly
positive.  The player stands on the vertical grid line x = 9 with the
wall cell (8, 4) immediately to the west, so the hit is at distance 0. -/
theorem claim_C5_cex :
    ((-1 : ℚ) ^ 2 + (0 : ℚ) ^ 2 = 1) ∧
    (0 ≤ (9 : ℚ) ∧ (9 : ℚ) < 16 ∧ 0 ≤ (9 / 2 : ℚ) ∧ (9 / 2 : ℚ) < 16) ∧
    isWall (cppTrunc (9 : ℚ)) (cppTrunc (9 / 2 : ℚ)) = false ∧
    rayCastDir (9 : ℚ) (9 / 2) (-1) 0 = some 0 := by
  refine ⟨by norm_num, by norm_num, ?_, ?_⟩
  · norm_num [cppTrunc]
    decide
  · have h84 : isWall 8 4 = true := by decide
    unfold rayCastDir
    norm_num [cppTrunc, ddaFuel, ddaLoop, ddaStep, h84]

/-- Witness for claim C5 at the program's start position (8, 10.5) and
the due-east unit direction. -/
theorem claim_C5_witness :
    ∃ d, rayCastDir (8 : ℚ) (21 / 2) 1 0 = some d ∧ 0 ≤ d ∧
      (Int.fract (8 : ℚ) ≠ 0 → Int.fract (21 / 2 : ℚ) ≠ 0 → 0 < d) :=
  claim_C5 1 0 8 (21 / 2) (by norm_num) (Or.inr rfl)
    (by norm_num) (by norm_num) (by norm_num) (by norm_num)
    (by
      norm_num [cppTrunc]
      decide)
    (by
      intro h
      norm_num [cppTrunc])
    (by
      intro h
      exact absurd h one_ne_zero)

/-- Claim C7: with the built-in map, column 400 of the 800-pixel screen
has ray angle exactly 0 when the player heading is 0; the direction of
that ray is (cos 0, sin 0) = (1, 0); and the cast from the start position
(8, 10.5) along it returns exactly 7, the distance from x = 8 to the
wall at column 15 of map row 10. -/
theorem claim_C7 :
    rayAngleAt (0 : ℚ) 400 = 0 ∧
    Real.cos 0 = 1 ∧ Real.sin 0 = 0 ∧
    rayCastDir (8 : ℚ) (21 / 2) 1 0 = some 7 := by
  refine ⟨by norm_num [rayAngleAt], Real.cos_zero, Real.sin_zero, ?_⟩
  have h9 : isWall 9 10 = false := by decide
  have h10 : isWall 10 10 = false := by decide
  have h11 : isWall 11 10 = false := by decide
  have h12 : isWall 12 10 = false := by decide
  have h13 : isWall 13 10 = false := by decide
  have h14 : isWall 14 10 = false := by decide
  have h15 : isWall 15 10 = true := by decide
  unfold rayCastDir
  norm_num [cppTrunc, ddaFuel, ddaLoop, ddaStep, h9, h10, h11, h12, h13, h14, h15]

/-- Claim C9: the map literal is exactly 16 rows of 16 cells (256
characters), every cell of its outer border is a wall, and consequently a
DDA traversal that starts in an in-grid non-wall cell and steps one cell
at a time can only report hits with both indices still inside the 16x16
range: it never leaves the grid. -/
theorem claim_C9 :
    gameMap.length = 256 ∧
    (∀ i : ℤ, 0 ≤ i → i ≤ 15 →
      isWall i 0 = true ∧ isWall i 15 = true ∧
      isWall 0 i = true ∧ isWall 15 i = true) ∧
    (∀ (deltaDistX deltaDistY : ℚ) (stepX stepY : ℤ) (fuel : ℕ)
        (st st' : DdaState ℚ) (side : Bool),
      stepX = 1 ∨ stepX = -1 → stepY = 1 ∨ stepY = -1 →
      isWall st.mapX st.mapY = false →
      0 ≤ st.mapX → st.mapX ≤ 15 → 0 ≤ st.mapY → st.mapY ≤ 15 →
      ddaLoop deltaDistX deltaDistY stepX stepY fuel st = some (st', side) →
      0 ≤ st'.mapX ∧ st'.mapX ≤ 15 ∧ 0 ≤ st'.mapY ∧ st'.mapY ≤ 15) := by
  refine ⟨gameMap_length, fun i h0 h1 => borderWall h0 h1, ?_⟩
  intro dX dY sX sY fuel st st' side hsX hsY hfree hx0 hx1 hy0 hy1 hloop
  obtain ⟨hi0, hi1, hi2, hi3⟩ := nonwall_interior hx0 hx1 hy0 hy1 hfree
  exact ddaLoop_stays_in_grid dX dY sX sY hsX hsY fuel st st' side
    hi0 hi1 hi2 hi3 hloop

/-- Witness for claim C9: a border instance and a concrete one-step
traversal from cell (14, 10) that hits the border wall (15, 10). -/
theorem claim_C9_witness :
    (isWall 5 0 = true ∧ isWall 5 15 = true ∧
      isWall 0 5 = true ∧ isWall 15 5 = true) ∧
    (0 ≤ (15 : ℤ) ∧ (15 : ℤ) ≤ 15 ∧ 0 ≤ (10 : ℤ) ∧ (10 : ℤ) ≤ 15) := by
  have h := claim_C9
  refine ⟨h.2.1 5 (by norm_num) (by norm_num), ?_⟩
  have h1510 : isWall 15 10 = true := by decide
  have hloop : ddaLoop (1 : ℚ) 1 1 1 1 ⟨0, 5, 14, 10⟩
      = some (⟨1, 5, 15, 10⟩, false) := by
    norm_num [ddaLoop, ddaStep, h1510]
  have hb := h.2.2 1 1 1 1 1 ⟨0, 5, 14, 10⟩ ⟨1, 5, 15, 10⟩ false
    (Or.inl rfl) (Or.inl rfl) (by decide) (by norm_num) (by norm_num)
    (by norm_num) (by norm_num) hloop
  exact hb

/-- Claim C10: `rayCast` writes no global state — the state it returns is
its input state — and two calls with the same column index and the same
player pose return the same distance regardless of the other globals. -/
theorem claim_C10 (x : ℤ) (g g' : Globals)
    (hx : g.playerX = g'.playerX) (hy : g.playerY = g'.playerY)
    (ha : g.playerAngle = g'.playerAngle) :
    (rayCast x g).2 = g ∧ (rayCast x g).1 = (rayCast x g').1 := by
  constructor
  · rfl
  · simp only [rayCast, rayAngleAt, hx, hy, ha]

/-- Witness for claim C10: two global states sharing the start pose but
differing in every FPS accumulator give identical distances, and the
state is returned unchanged. -/
theorem claim_C10_witness :
    (rayCast 0 ⟨8, 21 / 2, 0, 0, 0, 0⟩).2 = ⟨8, 21 / 2, 0, 0, 0, 0⟩ ∧
    (rayCast 0 ⟨8, 21 / 2, 0, 0, 0, 0⟩).1 = (rayCast 0 ⟨8, 21 / 2, 0, 7, 3, 1⟩).1 :=
  claim_C10 0 ⟨8, 21 / 2, 0, 0, 0, 0⟩ ⟨8, 21 / 2, 0, 7, 3, 1⟩ rfl rfl rfl

/-- Claim C3 fails on the code: the render loop computes
`screenHeight / 2.0f - screenHeight / d` with no minimum-distance clamp,
so at distance 0 the division is by zero and the ceiling and floor pixel
bounds are undefined (none), contradicting the claimed guard. -/
theorem claim_C3_div0 : ceilingOf 0 = none ∧ floorOf 0 = none := by
  constructor <;> rfl

/-- Truncation toward zero is monotone. -/
theorem cppTrunc_mono {α : Type} [LinearOrderedRing α] [FloorRing α]
    {x y : α} (h : x ≤ y) : cppTrunc x ≤ cppTrunc y := by
  unfold cppTrunc
  split_ifs with h1 h2 h2
  · exact Int.floor_le_floor h
  · exact absurd (le_trans h1 h) h2
  · exact le_trans (Int.ceil_le.mpr (by exact_mod_cast le_of_not_le h1))
      (Int.floor_nonneg.mpr h2)
  · exact Int.ceil_le_ceil h

/-- Truncation toward zero of a nonpositive value is nonpositive. -/
theorem cppTrunc_nonpos {α : Type} [LinearOrderedRing α] [FloorRing α]
    {x : α} (h : x ≤ 0) : cppTrunc x ≤ 0 := by
  unfold cppTrunc
  split_ifs with h1
  · exact Int.floor_nonpos h
  · exact Int.ceil_le.mpr (by exact_mod_cast h)

/-- The clamped, boundary-aware wall shade is never negative. -/
theorem wallShade_nonneg (d : ℚ) (b : Bool) : 0 ≤ wallShade d b := by
  simp only [wallShade]
  split_ifs <;> omega

/-- The clamped wall shade is antitone in the distance. -/
theorem wallShade_anti {d1 d2 : ℚ} (h : d1 ≤ d2) (b : Bool) :
    wallShade d2 b ≤ wallShade d1 b := by
  have hw : cppTrunc ((255 : ℚ) * (1 - d2 / 16)) ≤ cppTrunc ((255 : ℚ) * (1 - d1 / 16)) :=
    cppTrunc_mono (by linarith)
  simp only [wallShade]
  split_ifs <;> omega

/-- Fog intensity lies in [0, 1]. -/
theorem fogIntensity_mem (d : ℚ) : 0 ≤ fogIntensity d ∧ fogIntensity d ≤ 1 := by
  simp only [fogIntensity]
  split_ifs <;> constructor <;> linarith

/-- Fog intensity is monotone in the distance. -/
theorem fogIntensity_mono {d1 d2 : ℚ} (h : d1 ≤ d2) :
    fogIntensity d1 ≤ fogIntensity d2 := by
  simp only [fogIntensity]
  split_ifs <;> linarith

/-- At or beyond the maximum depth the wall shade is zero. -/
theorem wallShade_depth {d : ℚ} (h : (16 : ℚ) ≤ d) (b : Bool) :
    wallShade d b = 0 := by
  have hw : cppTrunc ((255 : ℚ) * (1 - d / 16)) ≤ 0 :=
    cppTrunc_nonpos (by nlinarith)
  simp only [wallShade]
  split_ifs <;> omega

/-- Claim C6: for either value of the boundary flag, the fogged wall
brightness is non-increasing as the distance grows from 0 to the maximum
depth 16, is zero for every distance at or beyond the maximum depth, and
is zero whenever the hit is flagged as a boundary wall. -/
theorem claim_C6 (b : Bool) :
    (∀ d1 d2 : ℚ, 0 ≤ d1 → d1 ≤ d2 → d2 ≤ 16 →
      foggedWallShade d2 b ≤ foggedWallShade d1 b) ∧
    (∀ d : ℚ, 16 ≤ d → foggedWallShade d b = 0) ∧
    (∀ d : ℚ, foggedWallShade d true = 0) := by
  refine ⟨?_, ?_, ?_⟩
  · intro d1 d2 h0 h12 h216
    unfold foggedWallShade
    apply cppTrunc_mono
    have hw1 : (0 : ℤ) ≤ wallShade d1 b := wallShade_nonneg d1 b
    have hw2 : (0 : ℤ) ≤ wallShade d2 b := wallShade_nonneg d2 b
    have hwa : wallShade d2 b ≤ wallShade d1 b := wallShade_anti h12 b
    have hf1 := fogIntensity_mem d1
    have hf2 := fogIntensity_mem d2
    have hfm : fogIntensity d1 ≤ fogIntensity d2 := fogIntensity_mono h12
    have hc1 : ((wallShade d2 b : ℤ) : ℚ) ≤ ((wallShade d1 b : ℤ) : ℚ) := by
      exact_mod_cast hwa
    have hc2 : (0 : ℚ) ≤ ((wallShade d1 b : ℤ) : ℚ) := by exact_mod_cast hw1
    apply mul_le_mul hc1 (by linarith) (by linarith) hc2
  · intro d h16
    unfold foggedWallShade
    rw [wallShade_depth h16 b]
    norm_num [cppTrunc]
  · intro d
    unfold foggedWallShade
    have hb : wallShade d true = 0 := by
      simp [wallShade]
    rw [hb]
    norm_num [cppTrunc]

/-- Witness for claim C6 at concrete distances. -/
theorem claim_C6_witness :
    foggedWallShade 10 false ≤ foggedWallShade 2 false ∧
    foggedWallShade 20 false = 0 ∧
    foggedWallShade 3 true = 0 :=
  ⟨(claim_C6 false).1 2 10 (by norm_num) (by norm_num) (by norm_num),
   (claim_C6 false).2.1 20 (by norm_num),
   (claim_C6 false).2.2 3⟩

/-- Claim C8: `getFps` increments the frame counter on every call; exactly
when at least one second has elapsed since the last measurement it sets
the reported rate to (incremented count) / elapsed and resets counter and
timer; otherwise it returns the previously stored value with counter
incremented and timer untouched; and the initial stored rate is 0. -/
theorem claim_C8 (now : ℚ) (st : FpsState) :
    ((getFps now st).2.frameCount
        = if 1 ≤ now - st.lastFpsTime then 0 else st.frameCount + 1) ∧
    (1 ≤ now - st.lastFpsTime →
      (getFps now st).1 = ((st.frameCount + 1 : ℤ) : ℚ) / (now - st.lastFpsTime) ∧
      (getFps now st).2.fps = (getFps now st).1 ∧
      (getFps now st).2.lastFpsTime = now) ∧
    (¬ 1 ≤ now - st.lastFpsTime →
      (getFps now st).1 = st.fps ∧
      (getFps now st).2.fps = st.fps ∧
      (getFps now st).2.lastFpsTime = st.lastFpsTime) ∧
    (initialFps now).fps = 0 := by
  unfold getFps initialFps
  split_ifs with h <;> simp [h]

/-- Witness for claim C8: a measurement tick with counter 5, previous
rate 7, elapsed 2 seconds reports (5+1)/2 = 3 and resets the counter. -/
theorem claim_C8_witness :
    (getFps 2 ⟨5, 7, 0⟩).1 = 3 ∧ (getFps 2 ⟨5, 7, 0⟩).2.frameCount = 0 := by
  have h := claim_C8 2 ⟨5, 7, 0⟩
  have h1 := h.2.1 (by norm_num)
  constructor
  · rw [h1.1]
    norm_num
  · rw [h.1]
    norm_num

/-- With only the forward key held and a nonnegative elapsed time, the
normalization in `handleMovement` is the identity on the accumulated
vector (its length is exactly `1.5 * t`), so the update adds the forward
displacement at base speed and leaves the heading unchanged. -/
theorem handleMovement_forward (p : Pose) (t : ℝ) (ht : 0 ≤ t) :
    handleMovement keysForward p 1.5 t =
      ⟨p.x + Real.cos p.angle * 1.5 * t, p.y + Real.sin p.angle * 1.5 * t,
       p.angle⟩ := by
  have hpy := Real.cos_sq_add_sin_sq p.angle
  have hS : Real.cos p.angle * (3 / 2) * t * (Real.cos p.angle * (3 / 2) * t) +
      Real.sin p.angle * (3 / 2) * t * (Real.sin p.angle * (3 / 2) * t)
      = ((3 : ℝ) / 2 * t) ^ 2 := by
    linear_combination ((3 : ℝ) / 2 * t) ^ 2 * hpy
  have hsq : Real.sqrt (Real.cos p.angle * (3 / 2) * t * (Real.cos p.angle * (3 / 2) * t) +
      Real.sin p.angle * (3 / 2) * t * (Real.sin p.angle * (3 / 2) * t))
      = (3 : ℝ) / 2 * t := by
    rw [hS]
    exact Real.sqrt_sq (by positivity)
  simp only [handleMovement, keysForward]
  norm_num [hsq]
  constructor <;> intro hpos <;>
    rw [div_mul_cancel₀ _ (by positivity : ((3 : ℝ) / 2 * t) ≠ 0)]

/-- With only the forward key held, the collision correction of the frame
loop is the exact inverse of the displacement `handleMovement` applied,
so a rejected move restores the pose exactly. -/
theorem frameMove_forward_wall (p : Pose) (t : ℝ) (ht : 0 ≤ t)
    (hwall : cellAtPos (handleMovement keysForward p 1.5 t).x
      (handleMovement keysForward p 1.5 t).y = '#') :
    frameMove keysForward p t = p := by
  obtain ⟨px, py, pa⟩ := p
  rw [frameMove, handleMovement_forward _ _ ht] at *
  rw [if_pos hwall]
  norm_num

/-- With only the forward key held, the frame update never leaves the
player in a wall cell if it did not start in one. -/
theorem frameMove_forward_nonwall (p : Pose) (t : ℝ) (ht : 0 ≤ t)
    (hstart : cellAtPos p.x p.y ≠ '#') :
    cellAtPos (frameMove keysForward p t).x (frameMove keysForward p t).y ≠ '#' := by
  by_cases hw : cellAtPos (handleMovement keysForward p 1.5 t).x
      (handleMovement keysForward p 1.5 t).y = '#'
  · rw [frameMove_forward_wall p t ht hw]
    exact hstart
  · rw [frameMove, if_neg hw]
    exact hw

theorem handleMovement_fs_dist (p : Pose) (t : ℝ) (ht : 0 < t) :
    Real.sqrt (((handleMovement keysForwardStrafe p 1.5 t).x - p.x) ^ 2 +
      ((handleMovement keysForwardStrafe p 1.5 t).y - p.y) ^ 2) = 1.5 * t := by
  have hpy := Real.cos_sq_add_sin_sq p.angle
  simp only [handleMovement, keysForwardStrafe]
  norm_num
  set A := Real.cos p.angle * (3 / 2) * t + -(Real.sin p.angle * (3 / 2) * t) with hA
  set B := Real.sin p.angle * (3 / 2) * t + Real.cos p.angle * (3 / 2) * t with hB
  have hS : A * A + B * B = 2 * (3 / 2 * t) ^ 2 := by
    rw [hA, hB]
    linear_combination 2 * ((3 / 2) * t) ^ 2 * hpy
  have hSpos : (0 : ℝ) < A * A + B * B := by
    rw [hS]
    positivity
  simp only [if_pos hSpos]
  have h2 : (Real.sqrt 2) ^ 2 = 2 := Real.sq_sqrt (by norm_num)
  have hsq2 : Real.sqrt (A * A + B * B) = (3 / 2) * t * Real.sqrt 2 := by
    rw [hS, show (2 : ℝ) * (3 / 2 * t) ^ 2 = ((3 / 2) * t * Real.sqrt 2) ^ 2 from by
      linear_combination (-((3 / 2) * t) ^ 2) * h2]
    exact Real.sqrt_sq (by positivity)
  rw [hsq2]
  have hne : (3 : ℝ) / 2 * t * Real.sqrt 2 ≠ 0 := by positivity
  have hfinal : (A / ((3 / 2) * t * Real.sqrt 2) * ((3 / 2) * t)) ^ 2 +
      (B / ((3 / 2) * t * Real.sqrt 2) * ((3 / 2) * t)) ^ 2 = ((3 / 2) * t) ^ 2 := by
    field_simp
    linear_combination 144 * t ^ 2 * hS + (-324) * t ^ 4 * h2
  rw [hfinal]
  exact Real.sqrt_sq (by positivity)

/-- Claim C4: with forward and strafe held together, no sprint and no
rotation, the displacement `handleMovement` applies over one tick has
magnitude exactly `speed * elapsedTime = 1.5 * t` (not `1.5 * t * sqrt 2`):
the accumulated vector is normalized to unit length before rescaling. -/
theorem claim_C4 (p : Pose) (t : ℝ) (ht : 0 ≤ t) :
    Real.sqrt (((handleMovement keysForwardStrafe p 1.5 t).x - p.x) ^ 2 +
      ((handleMovement keysForwardStrafe p 1.5 t).y - p.y) ^ 2) = 1.5 * t := by
  rcases eq_or_lt_of_le ht with h0 | hpos
  · simp only [handleMovement, keysForwardStrafe, ← h0]
    norm_num
  · exact handleMovement_fs_dist p t hpos

/-- Witness for claim C4: over a 0.2-second tick from the start pose the
diagonal displacement has magnitude exactly 0.3. -/
theorem claim_C4_witness :
    Real.sqrt (((handleMovement keysForwardStrafe ⟨8, 21 / 2, 0⟩ 1.5 (1 / 5)).x - 8) ^ 2 +
      ((handleMovement keysForwardStrafe ⟨8, 21 / 2, 0⟩ 1.5 (1 / 5)).y - 21 / 2) ^ 2)
      = 1.5 * (1 / 5) :=
  claim_C4 ⟨8, 21 / 2, 0⟩ (1 / 5) (by norm_num)

/-- Claim C1 (amended).  When the only held input is the forward key — no
backward, strafe, sprint or rotation input — and the elapsed time is
nonnegative, a proposed move whose destination cell is a wall is rejected
exactly: the collision correction restores the pose (position and
heading) to its pre-proposal value, in exact real arithmetic.  With
backward, strafe or sprint input the correction subtracts only the
forward displacement at base speed and the position is not restored
(claim_C1_cex). -/
theorem claim_C1 (p : Pose) (t : ℝ) (ht : 0 ≤ t)
    (hwall : cellAtPos (handleMovement keysForward p 1.5 t).x
      (handleMovement keysForward p 1.5 t).y = '#') :
    frameMove keysForward p t = p :=
  frameMove_forward_wall p t ht hwall

/-- Claim C2 (amended).  When the only held input is the forward key and
the elapsed time is nonnegative, a frame update starting in a non-wall
cell ends in a non-wall cell.  With other inputs the update can leave the
player inside a wall cell (claim_C2_cex). -/
theorem claim_C2 (p : Pose) (t : ℝ) (ht : 0 ≤ t)
    (hstart : cellAtPos p.x p.y ≠ '#') :
    cellAtPos (frameMove keysForward p t).x (frameMove keysForward p t).y ≠ '#' :=
  frameMove_forward_nonwall p t ht hstart

/-- Evaluation of the backward-only movement update at the pose
(1.2, 10.5, heading 0) over a 0.2-second tick: the proposal lands at
x = 0.9, inside the border wall cell (0, 10). -/
theorem handleMovement_back_eval :
    handleMovement keysBack ⟨6 / 5, 21 / 2, 0⟩ 1.5 (1 / 5) = ⟨9 / 10, 21 / 2, 0⟩ := by
  have h : Real.sqrt (9 / 100 : ℝ) = 3 / 10 := by
    rw [show (9 / 100 : ℝ) = (3 / 10) ^ 2 by norm_num]
    exact Real.sqrt_sq (by norm_num)
  simp only [handleMovement, keysBack]
  norm_num [Real.cos_zero, Real.sin_zero, h]

/-- Reduction of a position-level cell lookup to an integer one. -/
theorem cellAtPos_eval {x y : ℝ} (mx my : ℤ) (hx : 0 ≤ x) (hy : 0 ≤ y)
    (hfx : ⌊x⌋ = mx) (hfy : ⌊y⌋ = my) :
    cellAtPos x y = cellAt mx my := by
  rw [cellAtPos, cppTrunc_of_nonneg hx, cppTrunc_of_nonneg hy, hfx, hfy]

/-- The collision correction after the backward-only proposal subtracts
the forward displacement, moving the player further backward to x = 0.6
instead of restoring x = 1.2. -/
theorem frameMove_back_eval :
    frameMove keysBack ⟨6 / 5, 21 / 2, 0⟩ (1 / 5) = ⟨3 / 5, 21 / 2, 0⟩ := by
  have hwall : cellAtPos (9 / 10 : ℝ) (21 / 2 : ℝ) = '#' := by
    rw [cellAtPos_eval 0 10 (by norm_num) (by norm_num)
      (by norm_num [Int.floor_eq_iff]) (by norm_num [Int.floor_eq_iff])]
    decide
  simp only [frameMove, handleMovement_back_eval]
  rw [if_pos hwall]
  norm_num [Real.cos_zero, Real.sin_zero]

/-- Counterexample to claim C1 as stated: holding only the backward key
at pose (1.2, 10.5, heading 0) for a 0.2-second tick proposes the wall
cell (0, 10), yet the frame update does not leave the position
bit-identical — it ends at x = 0.6, not x = 1.2, because the correction
subtracts the forward (not the applied backward) displacement. -/
theorem claim_C1_cex :
    cellAtPos (handleMovement keysBack ⟨6 / 5, 21 / 2, 0⟩ 1.5 (1 / 5)).x
      (handleMovement keysBack ⟨6 / 5, 21 / 2, 0⟩ 1.5 (1 / 5)).y = '#' ∧
    (frameMove keysBack ⟨6 / 5, 21 / 2, 0⟩ (1 / 5)).x ≠ (6 / 5 : ℝ) := by
  constructor
  · rw [handleMovement_back_eval]
    show cellAtPos (9 / 10 : ℝ) (21 / 2 : ℝ) = '#'
    rw [cellAtPos_eval 0 10 (by norm_num) (by norm_num)
      (by norm_num [Int.floor_eq_iff]) (by norm_num [Int.floor_eq_iff])]
    decide
  · rw [frameMove_back_eval]
    norm_num

/-- Counterexample to claim C2 as stated: the same backward-only tick
starts in the empty cell (1, 10) and ends, after the collision
correction, at (0.6, 10.5), whose containing cell (0, 10) is a wall. -/
theorem claim_C2_cex :
    cellAtPos (6 / 5 : ℝ) (21 / 2 : ℝ) ≠ '#' ∧
    cellAtPos (frameMove keysBack ⟨6 / 5, 21 / 2, 0⟩ (1 / 5)).x
      (frameMove keysBack ⟨6 / 5, 21 / 2, 0⟩ (1 / 5)).y = '#' := by
  constructor
  · rw [cellAtPos_eval 1 10 (by norm_num) (by norm_num)
      (by norm_num [Int.floor_eq_iff]) (by norm_num [Int.floor_eq_iff])]
    decide
  · rw [frameMove_back_eval]
    show cellAtPos (3 / 5 : ℝ) (21 / 2 : ℝ) = '#'
    rw [cellAtPos_eval 0 10 (by norm_num) (by norm_num)
      (by norm_num [Int.floor_eq_iff]) (by norm_num [Int.floor_eq_iff])]
    decide

/-- Witness for claim C1: a forward-only tick from (14.8, 10.5, heading 0)
proposes (15.1, 10.5) inside the border wall column and is rejected
exactly, restoring the pose. -/
theorem claim_C1_witness :
    frameMove keysForward ⟨74 / 5, 21 / 2, 0⟩ (1 / 5) = ⟨74 / 5, 21 / 2, 0⟩ :=
  claim_C1 ⟨74 / 5, 21 / 2, 0⟩ (1 / 5) (by norm_num)
    (by
      rw [handleMovement_forward _ _ (by norm_num : (0 : ℝ) ≤ 1 / 5)]
      show cellAtPos ((74 : ℝ) / 5 + Real.cos 0 * 1.5 * (1 / 5))
        ((21 : ℝ) / 2 + Real.sin 0 * 1.5 * (1 / 5)) = '#'
      norm_num [Real.cos_zero, Real.sin_zero]
      rw [cellAtPos_eval 15 10 (by norm_num) (by norm_num)
        (by norm_num [Int.floor_eq_iff]) (by norm_num [Int.floor_eq_iff])]
      decide)

/-- Witness for claim C2: the same rejected forward-only tick ends in the
non-wall cell it started in. -/
theorem claim_C2_witness :
    cellAtPos (frameMove keysForward ⟨74 / 5, 21 / 2, 0⟩ (1 / 5)).x
      (frameMove keysForward ⟨74 / 5, 21 / 2, 0⟩ (1 / 5)).y ≠ '#' :=
  claim_C2 ⟨74 / 5, 21 / 2, 0⟩ (1 / 5) (by norm_num)
    (by
      show cellAtPos ((74 : ℝ) / 5) ((21 : ℝ) / 2) ≠ '#'
      rw [cellAtPos_eval 14 10 (by norm_num) (by norm_num)
        (by norm_num [Int.floor_eq_iff]) (by norm_num [Int.floor_eq_iff])]
      decide)
